import Mathlib

/-!
Verification of the table-assembly core of `data_profile.py`.

The script loads three worksheets of one workbook with
`pd.read_excel(path, sheet_name=..., header=[h]).iloc[1:, :]` and joins them with
`pd.concat([...], axis=1)`.  The development below embeds those operations
shallowly:

* a `Workbook` is a finite association of sheet names to grids of cells;
* `read_excel` extracts the row at the header offset as column names, takes all
  later rows as data and attaches the default positional labels `0, 1, 2, ...`
  (a pandas `RangeIndex`);
* `ilocTail` is `.iloc[1:, :]`: it drops the first data row while keeping the
  labels of the remaining rows;
* `assemble` is `pd.concat(axis=1)`: an outer join on row labels — when all
  inputs carry the same label sequence it is kept, otherwise the result is
  indexed by the sorted union of all labels, and a section missing a label
  contributes absent markers (`none`, modelling NaN) on that row.

Cells are `Option String`; `none` is the absent-value marker.  The error
conditions `SectionNotFound` and `MalformedHeader` of `loadSection` and
`EmptySectionSet` of `assemble` follow the specified contract of the reading
layer, which lives in the external library and not in the script itself.
-/

namespace DataProfile

/-- A cell of a spreadsheet; `none` is the absent-value marker (NaN). -/
abbrev Cell := Option String

/-- One worksheet: a grid of cell rows, exactly as stored in the document. -/
structure Sheet where
  rows : List (List Cell)
deriving DecidableEq

/-- A workbook: named worksheets, as consumed by `pd.read_excel(..., sheet_name=...)`. -/
structure Workbook where
  sheets : List (String × Sheet)
deriving DecidableEq

/-- A loaded section: column names, row labels (the pandas index) and the data
rows.  Mirrors the `DataFrame` produced by one `pd.read_excel(...).iloc[1:, :]`
line of the script. -/
structure Section where
  name : String
  columns : List String
  index : List Nat
  data : List (List Cell)
deriving DecidableEq

/-- The assembled table produced by `pd.concat(..., axis=1)`. -/
structure Table where
  columns : List String
  index : List Nat
  data : List (List Cell)
deriving DecidableEq

/-- Failures of `loadSection`. -/
inductive LoadError
  | SectionNotFound
  | MalformedHeader
deriving DecidableEq

/-- Failures of `assemble`. -/
inductive AssembleError
  | EmptySectionSet
deriving DecidableEq

deriving instance DecidableEq for Except

/-- Look a sheet up by name, as `pd.read_excel(..., sheet_name=name)` does. -/
def lookupSheet (wb : Workbook) (name : String) : Option Sheet :=
  (wb.sheets.find? (fun p => p.1 == name)).map (fun p => p.2)

/-- The row used as the header: the row at the given offset (empty when the
sheet has no such row). -/
def headerRowAt (sh : Sheet) (off : Nat) : List Cell :=
  ((sh.rows.drop off).head?).getD []

/-- A header is malformed when it is empty or every cell is absent. -/
def isBlankHeader (row : List Cell) : Bool :=
  row.all (fun c => c.isNone)

/-- Rectangularise one data row to the width of the column list, padding with
absent markers, as the reader does for ragged rows. -/
def fitRow (w : Nat) (r : List Cell) : List Cell :=
  r.take w ++ List.replicate (w - r.length) none

/-- The column name carried by a header cell. -/
def colName (c : Cell) : String :=
  c.getD ""

/-- Embedding of `pd.read_excel(..., sheet_name=sheetName, header=[off])`: the
row at `off` becomes the header, every later row is data, and the rows receive
the default labels `0, 1, 2, ...`.  Modelled from the spec: the reader itself is
an external collaborator; a missing sheet fails with `SectionNotFound`, and a
missing or all-blank header row fails with `MalformedHeader`. -/
def read_excel (wb : Workbook) (sheetName : String) (off : Nat) :
    Except LoadError Section :=
  match lookupSheet wb sheetName with
  | none => .error .SectionNotFound
  | some sh =>
    let hdr := headerRowAt sh off
    if isBlankHeader hdr then .error .MalformedHeader
    else
      let cols := hdr.map colName
      let body := (sh.rows.drop (off + 1)).map (fitRow cols.length)
      .ok { name := sheetName
            columns := cols
            index := List.range body.length
            data := body }

/-- Embedding of `.iloc[1:, :]`: drop the first data row, keeping the labels of
the remaining rows. -/
def ilocTail (s : Section) : Section :=
  { s with index := s.index.drop 1, data := s.data.drop 1 }

/-- One section load of the script:
`pd.read_excel(source, sheet_name=sectionName, header=[headerRowOffset]).iloc[1:, :]`. -/
def loadSection (wb : Workbook) (sectionName : String) (headerRowOffset : Nat) :
    Except LoadError Section :=
  (read_excel wb sectionName headerRowOffset).map ilocTail

/-- Insert a label into a sorted label list. -/
def insertSorted (x : Nat) : List Nat → List Nat
  | [] => [x]
  | y :: ys => if x ≤ y then x :: y :: ys else y :: insertSorted x ys

/-- Sort a label list ascending (the order `pandas` gives a label union). -/
def sortNat (l : List Nat) : List Nat :=
  l.foldr insertSorted []

/-- The row index of the concatenation, as `pd.concat(axis=1)` builds it: when
every input carries the same label sequence that sequence is kept, otherwise the
result is indexed by the sorted union of all labels (an outer join). -/
def combinedIndex (sections : List Section) : List Nat :=
  match sections with
  | [] => []
  | s₀ :: rest =>
    if (s₀ :: rest).all (fun s => s.index == s₀.index)
    then s₀.index
    else sortNat (((s₀ :: rest).flatMap (fun s => s.index)).dedup)

/-- Find the data row carried by a label: labels and rows are matched up
pairwise and the first row whose label agrees is returned. -/
def findRow : List Nat → List (List Cell) → Nat → Option (List Cell)
  | [], _, _ => none
  | _ :: _, [], _ => none
  | l :: ls, r :: rs, lab => if lab = l then some r else findRow ls rs lab

/-- The cells a section contributes on the output row with the given label: its
own row when it carries the label, a full row of absent markers otherwise. -/
def rowAt (s : Section) (lab : Nat) : List Cell :=
  match findRow s.index s.data lab with
  | some r => fitRow s.columns.length r
  | none => List.replicate s.columns.length none

/-- Embedding of `pd.concat(sections, axis=1)`: columns are concatenated in
order, rows are aligned by label over `combinedIndex`.  The empty input fails
with `EmptySectionSet` (as `pd.concat` of no objects raises). -/
def assemble (sections : List Section) : Except AssembleError Table :=
  match sections with
  | [] => .error .EmptySectionSet
  | s₀ :: rest =>
    let idx := combinedIndex (s₀ :: rest)
    .ok { columns := (s₀ :: rest).flatMap (fun s => s.columns)
          index := idx
          data := idx.map (fun lab => (s₀ :: rest).flatMap (fun s => rowAt s lab)) }

/-- The largest row count among a list of sections. -/
def maxLen (sections : List Section) : Nat :=
  (sections.map (fun s => s.data.length)).foldr max 0

/-- The three loads of the script, with the hardcoded workbook abstracted into
a parameter. -/
def vps5_crude_diet (wb : Workbook) : Except LoadError Section :=
  loadSection wb "VPS5 Crude Diet" 5

/-- Second load of the script. -/
def vps5_yields (wb : Workbook) : Except LoadError Section :=
  loadSection wb "VPS5 Yields" 5

/-- Third load of the script; its header offset is 6, not 5. -/
def vps5_strmq (wb : Workbook) : Except LoadError Section :=
  loadSection wb "VPS5 StrmQ" 6

/-- `all_data = pd.concat([vps5_crude_diet, vps5_yields, vps5_strmq], axis=1)`. -/
def all_data (wb : Workbook) : Option Table :=
  match vps5_crude_diet wb, vps5_yields wb, vps5_strmq wb with
  | .ok a, .ok b, .ok c => (assemble [a, b, c]).toOption
  | _, _, _ => none

/-- One call of the table-assembly layer. -/
inductive Call
  | load (wb : Workbook) (sectionName : String) (headerRowOffset : Nat)
  | concat (sections : List Section)

/-- The observable result of one call. -/
inductive Outcome
  | loaded (r : Except LoadError Section)
  | assembled (r : Except AssembleError Table)

/-- Run one call. -/
def execCall : Call → Outcome
  | .load wb nm off => .loaded (loadSection wb nm off)
  | .concat ss => .assembled (assemble ss)

/-- Run a sequence of calls in order, collecting the outcomes.  There is no
state: the script keeps nothing between its pandas calls. -/
def runCalls (cs : List Call) : List Outcome :=
  cs.map execCall

/-! Concrete instances used by witnesses and counterexamples. -/

/-- A sheet with two junk rows, a header row at offset 2 and three data rows. -/
def shW : Sheet :=
  ⟨[[none, none], [some "junk", none], [some "A", some "B"],
    [some "a1", some "b1"], [some "a2", some "b2"], [some "a3", some "b3"]]⟩

/-- A one-sheet workbook holding `shW` under the name `"S"`. -/
def wbW : Workbook :=
  ⟨[("S", shW)]⟩

/-- The section `loadSection wbW "S" 2` produces: the first data row is gone
and the remaining rows keep their labels `1` and `2`. -/
def secW : Section :=
  ⟨"S", ["A", "B"], [1, 2], [[some "a2", some "b2"], [some "a3", some "b3"]]⟩

/-- One-row section carrying the label `0`. -/
def cex2a : Section := ⟨"X", ["X"], [0], [[some "x0"]]⟩

/-- One-row section carrying the label `1`, so its label set differs from
`cex2a`'s. -/
def cex2b : Section := ⟨"Y", ["Y"], [1], [[some "y1"]]⟩

/-- One-row section carrying the label `0`. -/
def cex3a : Section := ⟨"C", ["C"], [0], [[some "c0"]]⟩

/-- One-row section carrying the label `1`. -/
def cex3b : Section := ⟨"D", ["D"], [1], [[some "d1"]]⟩

/-- Two-row section with the canonical labels `1, 2`. -/
def w2a : Section := ⟨"W2A", ["A"], [1, 2], [[some "a1"], [some "a2"]]⟩

/-- Three-row section with the canonical labels `1, 2, 3`. -/
def w2b : Section :=
  ⟨"W2B", ["B"], [1, 2, 3], [[some "b1"], [some "b2"], [some "b3"]]⟩

/-- First section of the end-to-end example: columns `A`, `B`, three rows. -/
def e3a : Section :=
  ⟨"S1", ["A", "B"], [1, 2, 3],
   [[some "a1", some "b1"], [some "a2", some "b2"], [some "a3", some "b3"]]⟩

/-- Second section of the end-to-end example: column `C`, three rows. -/
def e3b : Section :=
  ⟨"S2", ["C"], [1, 2, 3], [[some "c1"], [some "c2"], [some "c3"]]⟩

/-- Third section of the end-to-end example: columns `D`, `E`, three rows. -/
def e3c : Section :=
  ⟨"S3", ["D", "E"], [1, 2, 3],
   [[some "d1", some "e1"], [some "d2", some "e2"], [some "d3", some "e3"]]⟩

/-- An arbitrary concrete table. -/
def mtTable : Table := ⟨[], [], []⟩

/-- A one-cell section for the provenance witness. -/
def s9 : Section := ⟨"S9", ["V"], [1], [[some "v"]]⟩

/-- The table `assemble [s9]` yields. -/
def t9 : Table := ⟨["V"], [1], [[some "v"]]⟩

/-- Two-row section with labels `1, 2`. -/
def w10a : Section := ⟨"WA", ["A"], [1, 2], [[some "wa1"], [some "wa2"]]⟩

/-- Two-row section with labels `2, 3`: it overlaps `w10a` on label `2` only. -/
def w10b : Section := ⟨"WB", ["B"], [2, 3], [[some "wb2"], [some "wb3"]]⟩

end DataProfile

namespace DataProfile

theorem insertSorted_perm (x : Nat) (l : List Nat) :
    (insertSorted x l).Perm (x :: l) := by
  induction l with
  | nil => simp [insertSorted]
  | cons y ys ih =>
    simp only [insertSorted]
    by_cases h : x ≤ y
    · rw [if_pos h]
    · rw [if_neg h]
      exact (ih.cons y).trans (List.Perm.swap x y ys)

theorem sortNat_perm (l : List Nat) : (sortNat l).Perm l := by
  induction l with
  | nil => simp [sortNat]
  | cons x xs ih =>
    simpa [sortNat] using (insertSorted_perm x (sortNat xs)).trans (ih.cons x)

theorem sorted_insertSorted (x : Nat) (l : List Nat)
    (h : l.Sorted (· ≤ ·)) : (insertSorted x l).Sorted (· ≤ ·) := by
  induction l with
  | nil => simp [insertSorted]
  | cons y ys ih =>
    rw [List.sorted_cons] at h
    simp only [insertSorted]
    by_cases hxy : x ≤ y
    · rw [if_pos hxy]
      refine List.sorted_cons.mpr ⟨?_, List.sorted_cons.mpr h⟩
      intro b hb
      rcases List.mem_cons.mp hb with hb | hb
      · exact hb ▸ hxy
      · exact hxy.trans (h.1 b hb)
    · rw [if_neg hxy]
      refine List.sorted_cons.mpr ⟨?_, ih h.2⟩
      intro b hb
      rcases List.mem_cons.mp ((insertSorted_perm x ys).mem_iff.mp hb) with hb | hb
      · exact hb ▸ le_of_not_le hxy
      · exact h.1 b hb

theorem sortNat_sorted (l : List Nat) : (sortNat l).Sorted (· ≤ ·) := by
  induction l with
  | nil => simp [sortNat, List.sorted_nil]
  | cons x xs ih => simpa [sortNat] using sorted_insertSorted x (sortNat xs) ih

theorem sortNat_eq_of_sorted (l r : List Nat) (hl : l.Nodup) (hr : r.Nodup)
    (hsr : r.Sorted (· ≤ ·)) (hmem : ∀ x, x ∈ l ↔ x ∈ r) : sortNat l = r := by
  have hperm : l.Perm r := by
    refine List.perm_of_nodup_nodup_toFinset_eq hl hr ?_
    ext x
    simp [List.mem_toFinset, hmem x]
  exact List.eq_of_perm_of_sorted ((sortNat_perm l).trans hperm)
    (sortNat_sorted l) hsr

theorem range'_one_sorted (s n : Nat) :
    (List.range' s n).Sorted (· ≤ ·) :=
  (List.pairwise_lt_range' s n).imp le_of_lt

theorem findRow_eq_none (ls : List Nat) (rs : List (List Cell)) (lab : Nat)
    (h : lab ∉ ls) : findRow ls rs lab = none := by
  induction ls generalizing rs with
  | nil => cases rs <;> rfl
  | cons l ls ih =>
    cases rs with
    | nil => rfl
    | cons r rs =>
      simp only [List.mem_cons, not_or] at h
      simp only [findRow]
      rw [if_neg h.1]
      exact ih rs h.2

theorem findRow_mem (ls : List Nat) (rs : List (List Cell)) (lab : Nat)
    (r : List Cell) (h : findRow ls rs lab = some r) : r ∈ rs := by
  induction ls generalizing rs with
  | nil => simp [findRow] at h
  | cons l ls ih =>
    cases rs with
    | nil => simp [findRow] at h
    | cons r₀ rs =>
      simp only [findRow] at h
      by_cases he : lab = l
      · rw [if_pos he] at h
        cases h
        exact List.mem_cons_self _ _
      · rw [if_neg he] at h
        exact List.mem_cons_of_mem r₀ (ih rs h)

theorem findRow_range' (a : Nat) (data : List (List Cell)) (i : Nat) :
    findRow (List.range' a data.length) data (a + i) = data[i]? := by
  induction data generalizing a i with
  | nil => simp [findRow]
  | cons r rs ih =>
    rw [List.length_cons, List.range'_succ]
    simp only [findRow]
    cases i with
    | zero => simp
    | succ j =>
      rw [if_neg (by omega), List.getElem?_cons_succ,
        show a + (j + 1) = (a + 1) + j by omega]
      exact ih (a + 1) j

theorem findRow_nodup_label (index : List Nat) (data : List (List Cell))
    (hnd : index.Nodup) (hl : data.length = index.length)
    (i lab : Nat) (hlab : index[i]? = some lab) :
    findRow index data lab = data[i]? := by
  induction index generalizing data i with
  | nil => simp at hlab
  | cons l ls ih =>
    cases data with
    | nil => simp at hl
    | cons r rs =>
      cases i with
      | zero =>
        rw [List.getElem?_cons_zero] at hlab
        cases hlab
        simp [findRow]
      | succ j =>
        rw [List.getElem?_cons_succ] at hlab
        have hmem : lab ∈ ls := List.getElem?_mem hlab
        have hne : lab ≠ l := fun he => (List.nodup_cons.mp hnd).1 (he ▸ hmem)
        simp only [findRow]
        rw [if_neg hne, List.getElem?_cons_succ]
        exact ih rs (List.nodup_cons.mp hnd).2 (by simpa using hl) j hlab

theorem fitRow_length (w : Nat) (r : List Cell) : (fitRow w r).length = w := by
  simp only [fitRow, List.length_append, List.length_take, List.length_replicate]
  omega

theorem fitRow_eq (w : Nat) (r : List Cell) (h : r.length = w) :
    fitRow w r = r := by
  subst h
  simp [fitRow]

theorem rowAt_not_mem (s : Section) (lab : Nat) (h : lab ∉ s.index) :
    rowAt s lab = List.replicate s.columns.length none := by
  unfold rowAt
  rw [findRow_eq_none s.index s.data lab h]

theorem rowAt_canonical (s : Section) (i : Nat)
    (hcanon : s.index = List.range' 1 s.data.length) :
    rowAt s (1 + i) =
      if i < s.data.length
      then fitRow s.columns.length (s.data[i]?.getD [])
      else List.replicate s.columns.length none := by
  have hfr : findRow s.index s.data (1 + i) = s.data[i]? := by
    rw [hcanon]
    exact findRow_range' 1 s.data i
  by_cases hi : i < s.data.length
  · rw [if_pos hi]
    unfold rowAt
    rw [hfr, List.getElem?_eq_getElem hi]
    rfl
  · rw [if_neg hi]
    unfold rowAt
    rw [hfr, List.getElem?_eq_none (le_of_not_lt hi)]

theorem rowAt_label_at (s : Section) (i lab : Nat)
    (hnd : s.index.Nodup) (hwf : s.index.length = s.data.length)
    (hrect : ∀ r ∈ s.data, r.length = s.columns.length)
    (hlab : s.index[i]? = some lab) (hid : i < s.data.length) :
    rowAt s lab = s.data[i]?.getD [] := by
  unfold rowAt
  rw [findRow_nodup_label s.index s.data hnd hwf.symm i lab hlab,
    List.getElem?_eq_getElem hid]
  exact fitRow_eq _ _ (hrect _ (List.getElem_mem hid))

theorem le_foldr_max (l : List Nat) (x : Nat) (hx : x ∈ l) :
    x ≤ l.foldr max 0 := by
  induction l with
  | nil => simp at hx
  | cons y ys ih =>
    rcases List.mem_cons.mp hx with hx | hx
    · exact hx ▸ le_max_left y (ys.foldr max 0)
    · exact (ih hx).trans (le_max_right y (ys.foldr max 0))

theorem foldr_max_mem (l : List Nat) (h : 0 < l.foldr max 0) :
    l.foldr max 0 ∈ l := by
  induction l with
  | nil => simp at h
  | cons y ys ih =>
    simp only [List.foldr] at h ⊢
    rcases le_total y (ys.foldr max 0) with hc | hc
    · rw [max_eq_right hc] at h ⊢
      exact List.mem_cons_of_mem y (ih h)
    · rw [max_eq_left hc]
      exact List.mem_cons_self y ys

theorem foldr_max_const (l : List Nat) (n : Nat) (h : ∀ x ∈ l, x = n)
    (hne : l ≠ []) : l.foldr max 0 = n := by
  induction l with
  | nil => cases hne rfl
  | cons y ys ih =>
    have hy : y = n := h y (List.mem_cons_self y ys)
    cases ys with
    | nil => simp [hy]
    | cons z zs =>
      have hz : (z :: zs).foldr max 0 = n :=
        ih (fun x hx => h x (List.mem_cons_of_mem y hx)) (by simp)
      simp only [List.foldr] at hz ⊢
      rw [hz, hy, max_self]

theorem flatMap_congr {α β : Type} (l : List α) (f g : α → List β)
    (h : ∀ a ∈ l, f a = g a) : l.flatMap f = l.flatMap g := by
  induction l with
  | nil => rfl
  | cons x xs ih =>
    simp only [List.flatMap_cons]
    rw [h x (List.mem_cons_self x xs),
      ih (fun a ha => h a (List.mem_cons_of_mem x ha))]

theorem range_drop_one (n : Nat) :
    (List.range n).drop 1 = List.range' 1 (n - 1) := by
  cases n with
  | zero => rfl
  | succ m =>
    rw [List.range_eq_range', List.range'_succ]
    simp

theorem combinedIndex_canonical (s₀ : Section) (rest : List Section)
    (hcanon : ∀ s ∈ s₀ :: rest, s.index = List.range' 1 s.data.length) :
    combinedIndex (s₀ :: rest) = List.range' 1 (maxLen (s₀ :: rest)) := by
  by_cases hall : ((s₀ :: rest).all (fun s => s.index == s₀.index)) = true
  · simp only [combinedIndex]
    rw [if_pos hall]
    have h₀ := hcanon s₀ (List.mem_cons_self s₀ rest)
    have hmax : maxLen (s₀ :: rest) = s₀.data.length := by
      unfold maxLen
      refine foldr_max_const _ _ ?_ (by simp)
      intro x hx
      rcases List.mem_map.mp hx with ⟨s, hs, hxs⟩
      have heq : s.index = s₀.index :=
        eq_of_beq (List.all_eq_true.mp hall s hs)
      have hrg : List.range' 1 s.data.length = List.range' 1 s₀.data.length := by
        rw [← hcanon s hs, ← h₀]
        exact heq
      have hlen : s.data.length = s₀.data.length := by
        have h2 := congrArg List.length hrg
        simpa [List.length_range'] using h2
      rw [← hxs]
      exact hlen
    rw [hmax, ← h₀]
  · simp only [combinedIndex]
    rw [if_neg hall]
    refine sortNat_eq_of_sorted _ _ (List.nodup_dedup _) (List.nodup_range' 1 _)
      (range'_one_sorted 1 _) ?_
    intro x
    rw [List.mem_dedup, List.mem_flatMap, List.mem_range'_1]
    constructor
    · rintro ⟨s, hs, hx⟩
      rw [hcanon s hs, List.mem_range'_1] at hx
      have hle : s.data.length ≤ maxLen (s₀ :: rest) :=
        le_foldr_max _ _ (List.mem_map.mpr ⟨s, hs, rfl⟩)
      exact ⟨hx.1, by omega⟩
    · rintro ⟨hx1, hx2⟩
      have hM : 0 < maxLen (s₀ :: rest) := by omega
      have hmem := foldr_max_mem _ hM
      rcases List.mem_map.mp hmem with ⟨s, hs, hlen⟩
      refine ⟨s, hs, ?_⟩
      rw [hcanon s hs, List.mem_range'_1]
      constructor
      · exact hx1
      · have : maxLen (s₀ :: rest) = s.data.length := hlen.symm
        omega

theorem loadSection_ok_shape (wb : Workbook) (nm : String) (off : Nat)
    (sh : Sheet) (hlk : lookupSheet wb nm = some sh)
    (hhdr : isBlankHeader (headerRowAt sh off) = false) :
    loadSection wb nm off = .ok
      { name := nm
        columns := (headerRowAt sh off).map colName
        index := (List.range ((sh.rows.drop (off + 1)).length)).drop 1
        data := ((sh.rows.drop (off + 1)).map
          (fitRow ((headerRowAt sh off).map colName).length)).drop 1 } := by
  unfold loadSection read_excel
  rw [hlk]
  simp [hhdr, Except.map, ilocTail]

theorem loadSection_ok_canonical (wb : Workbook) (nm : String) (off : Nat)
    (sec : Section) (hok : loadSection wb nm off = .ok sec) :
    sec.index = List.range' 1 sec.data.length := by
  unfold loadSection read_excel at hok
  cases hlk : lookupSheet wb nm <;> rw [hlk] at hok
  · simp [Except.map] at hok
  case some sh =>
    by_cases hb : isBlankHeader (headerRowAt sh off) = true
    · simp [hb, Except.map] at hok
    · simp only [Bool.not_eq_true] at hb
      simp only [hb, Bool.false_eq_true, if_false, Except.map] at hok
      have hsec := (Except.ok.injEq _ _).mp hok
      rw [← hsec]
      simp only [ilocTail, range_drop_one, List.length_drop, List.length_map]

/-- C1: for every section load, the row at `headerRowOffset` becomes the
header, and exactly one data row — the one immediately below the header — is
discarded unconditionally: a sheet with the header row at offset `h` and `n`
data rows below it loads to a Section with `n - 1` rows, whatever `h` is. -/
theorem C1_loadSection_drops_one_data_row (wb : Workbook) (nm : String)
    (h n : Nat) (sh : Sheet)
    (hlk : lookupSheet wb nm = some sh)
    (hlen : sh.rows.length = h + 1 + n)
    (hhdr : isBlankHeader (headerRowAt sh h) = false) :
    ∃ sec, loadSection wb nm h = .ok sec ∧ sec.data.length = n - 1 := by
  refine ⟨_, loadSection_ok_shape wb nm h sh hlk hhdr, ?_⟩
  simp only [List.length_drop, List.length_map, hlen]
  omega

theorem C1_witness :
    lookupSheet wbW "S" = some shW ∧ shW.rows.length = 2 + 1 + 3 ∧
    isBlankHeader (headerRowAt shW 2) = false ∧
    ∃ sec, loadSection wbW "S" 2 = .ok sec ∧ sec.data.length = 3 - 1 :=
  ⟨by decide, by decide, by decide,
   C1_loadSection_drops_one_data_row wbW "S" 2 3 shW (by decide) (by decide)
     (by decide)⟩

/-- C4: for every non-empty sequence of sections, the column list of the
assembled table is the ordered concatenation of the sections' column lists, so
duplicated names are preserved as distinct columns with no deduplication. -/
theorem C4_columns_are_ordered_concat (s₀ : Section) (rest : List Section) :
    ∃ t, assemble (s₀ :: rest) = .ok t ∧
      t.columns = (s₀ :: rest).flatMap (fun s => s.columns) :=
  ⟨_, rfl, rfl⟩

/-- C5: assembling the empty sequence fails with `EmptySectionSet`, and on any
failure of `assemble` or `loadSection` no partial result is produced: an
erroneous call never also yields an `ok` value. -/
theorem C5_empty_fails_and_all_or_nothing :
    assemble ([] : List Section) = .error .EmptySectionSet ∧
    (∀ (sections : List Section) (e : AssembleError) (t : Table),
      assemble sections = .error e → assemble sections ≠ .ok t) ∧
    (∀ (wb : Workbook) (nm : String) (off : Nat) (e : LoadError) (sec : Section),
      loadSection wb nm off = .error e → loadSection wb nm off ≠ .ok sec) := by
  refine ⟨rfl, ?_, ?_⟩
  · intro ss e t he hok
    rw [he] at hok
    cases hok
  · intro wb nm off e sec he hok
    rw [he] at hok
    cases hok

theorem C5_witness :
    assemble ([] : List Section) = .error .EmptySectionSet ∧
    assemble ([] : List Section) ≠ .ok mtTable ∧
    loadSection wbW "Missing" 0 ≠ .ok secW :=
  ⟨rfl,
   C5_empty_fails_and_all_or_nothing.2.1 [] .EmptySectionSet mtTable rfl,
   C5_empty_fails_and_all_or_nothing.2.2 wbW "Missing" 0 .SectionNotFound secW
     rfl⟩

/-- C6: loading a section whose name does not exist in the source fails with
`SectionNotFound`. -/
theorem C6_missing_section_not_found (wb : Workbook) (nm : String) (off : Nat)
    (h : lookupSheet wb nm = none) :
    loadSection wb nm off = .error .SectionNotFound := by
  unfold loadSection read_excel
  rw [h]
  rfl

theorem C6_witness :
    lookupSheet wbW "Missing" = none ∧
    loadSection wbW "Missing" 0 = .error .SectionNotFound :=
  ⟨by decide, C6_missing_section_not_found wbW "Missing" 0 (by decide)⟩

/-- C7: loading a section whose header row is empty or contains only absent
values fails with `MalformedHeader` and returns no Section. -/
theorem C7_blank_header_malformed (wb : Workbook) (nm : String) (off : Nat)
    (sh : Sheet) (hlk : lookupSheet wb nm = some sh)
    (hblank : isBlankHeader (headerRowAt sh off) = true) :
    loadSection wb nm off = .error .MalformedHeader := by
  unfold loadSection read_excel
  rw [hlk]
  simp [hblank, Except.map]

theorem C7_witness :
    lookupSheet wbW "S" = some shW ∧
    isBlankHeader (headerRowAt shW 0) = true ∧
    loadSection wbW "S" 0 = .error .MalformedHeader :=
  ⟨by decide, by decide,
   C7_blank_header_malformed wbW "S" 0 shW (by decide) (by decide)⟩

/-- C8: the operations keep no state between calls — the outcome of a call is
a function of its arguments alone, identical under any prior call history, so
repeated invocation with identical inputs gives identical results. -/
theorem C8_no_retained_state (cs₁ cs₂ : List Call) (c : Call) :
    (runCalls (cs₁ ++ [c])).getLast? = (runCalls (cs₂ ++ [c])).getLast? := by
  simp [runCalls, List.map_append, List.getLast?_concat]

/-- C2 fails as stated: `pd.concat(axis=1)` aligns rows by label, not by
position.  These two sections each have exactly one row (so the maximum row
count is 1), but they carry the labels `0` and `1` respectively, and the
assembled table has 2 rows. -/
theorem C2_counterexample :
    cex2a.data.length = 1 ∧ cex2b.data.length = 1 ∧
    (assemble [cex2a, cex2b]).toOption.map (fun t => t.data.length) = some 2 := by
  decide

/-- C2 (amended): for sections whose row labels are the canonical labels a
`loadSection` result carries (`1, ..., rowCount`), assembly is positional with
padding: the table's row count is the maximum row count of the inputs, and row
`i` is the concatenation of each section's row `i`, a shorter section
contributing a full row of absent markers. -/
theorem C2_amended_rowcount_is_max (s₀ : Section) (rest : List Section)
    (hcanon : ∀ s ∈ s₀ :: rest, s.index = List.range' 1 s.data.length) :
    ∃ t, assemble (s₀ :: rest) = .ok t ∧
      t.data.length = maxLen (s₀ :: rest) ∧
      ∀ i, i < t.data.length →
        t.data[i]? = some ((s₀ :: rest).flatMap (fun s =>
          if i < s.data.length
          then fitRow s.columns.length (s.data[i]?.getD [])
          else List.replicate s.columns.length none)) := by
  have hidx := combinedIndex_canonical s₀ rest hcanon
  refine ⟨_, rfl, ?_, ?_⟩
  · show ((combinedIndex (s₀ :: rest)).map _).length = _
    rw [hidx, List.length_map, List.length_range']
  · intro i hi
    show ((combinedIndex (s₀ :: rest)).map _)[i]? = _
    have hi2 : i < (List.range' 1 (maxLen (s₀ :: rest))).length := by
      rw [← hidx]
      simpa using hi
    rw [List.getElem?_map, hidx, List.getElem?_eq_getElem hi2,
      List.getElem_range']
    simp only [Option.map_some', one_mul]
    refine congrArg some (flatMap_congr _ _ _ (fun s hs => ?_))
    exact rowAt_canonical s i (hcanon s hs)

theorem C2_witness :
    (∀ s ∈ [w2a, w2b], s.index = List.range' 1 s.data.length) ∧
    (∃ t, assemble [w2a, w2b] = .ok t ∧
      t.data.length = maxLen [w2a, w2b] ∧
      ∀ i, i < t.data.length →
        t.data[i]? = some ([w2a, w2b].flatMap (fun s =>
          if i < s.data.length
          then fitRow s.columns.length (s.data[i]?.getD [])
          else List.replicate s.columns.length none))) :=
  ⟨by decide, C2_amended_rowcount_is_max w2a [w2b] (by decide)⟩

/-- C3 fails as stated: equal row counts are not enough, because alignment is
by label.  These two sections both have exactly one row, but carry the labels
`0` and `1`, and assembling them yields a table with 2 rows, not 1. -/
theorem C3_counterexample :
    cex3a.data.length = 1 ∧ cex3b.data.length = 1 ∧
    (assemble [cex3a, cex3b]).toOption.map (fun t => t.data.length) = some 2 := by
  decide

/-- C3 (amended): for sections with equal row counts that carry identical
duplicate-free label sequences, assembly is positional: the table has the same
row count, and row `i` is the left-to-right concatenation of row `i` of each
input section. -/
theorem C3_amended_equal_rows_concat (s₀ : Section) (rest : List Section)
    (n : Nat)
    (hidx : ∀ s ∈ s₀ :: rest, s.index = s₀.index)
    (hnd : s₀.index.Nodup)
    (hlen : ∀ s ∈ s₀ :: rest, s.data.length = n)
    (hwf : ∀ s ∈ s₀ :: rest, s.index.length = s.data.length)
    (hrect : ∀ s ∈ s₀ :: rest, ∀ r ∈ s.data, r.length = s.columns.length) :
    ∃ t, assemble (s₀ :: rest) = .ok t ∧ t.data.length = n ∧
      ∀ i, i < n →
        t.data[i]? = some ((s₀ :: rest).flatMap (fun s => s.data[i]?.getD [])) := by
  have hall : ((s₀ :: rest).all (fun s => s.index == s₀.index)) = true := by
    rw [List.all_eq_true]
    intro s hs
    exact beq_iff_eq.mpr (hidx s hs)
  have hci : combinedIndex (s₀ :: rest) = s₀.index := by
    simp only [combinedIndex]
    rw [if_pos hall]
  have hlen₀ : s₀.index.length = n := by
    rw [hwf s₀ (List.mem_cons_self s₀ rest), hlen s₀ (List.mem_cons_self s₀ rest)]
  refine ⟨_, rfl, ?_, ?_⟩
  · show ((combinedIndex (s₀ :: rest)).map _).length = n
    rw [hci, List.length_map, hlen₀]
  · intro i hi
    have hi2 : i < s₀.index.length := by
      rw [hlen₀]
      exact hi
    show ((combinedIndex (s₀ :: rest)).map _)[i]? = _
    rw [hci, List.getElem?_map, List.getElem?_eq_getElem hi2]
    simp only [Option.map_some']
    refine congrArg some (flatMap_congr _ _ _ (fun s hs => ?_))
    have hseq := hidx s hs
    refine rowAt_label_at s i _ ?_ (hwf s hs) (hrect s hs) ?_ ?_
    · rw [hseq]
      exact hnd
    · rw [hseq]
      exact List.getElem?_eq_getElem hi2
    · rw [hlen s hs]
      exact hi

theorem C3_witness :
    (∀ s ∈ [e3a, e3b, e3c], s.index = e3a.index) ∧ e3a.index.Nodup ∧
    (∀ s ∈ [e3a, e3b, e3c], s.data.length = 3) ∧
    (∀ s ∈ [e3a, e3b, e3c], s.index.length = s.data.length) ∧
    (∀ s ∈ [e3a, e3b, e3c], ∀ r ∈ s.data, r.length = s.columns.length) ∧
    (∃ t, assemble [e3a, e3b, e3c] = .ok t ∧ t.data.length = 3 ∧
      ∀ i, i < 3 →
        t.data[i]? = some ([e3a, e3b, e3c].flatMap (fun s => s.data[i]?.getD []))) :=
  ⟨by decide, by decide, by decide, by decide, by decide,
   C3_amended_equal_rows_concat e3a [e3b, e3c] 3 (by decide) (by decide)
     (by decide) (by decide) (by decide)⟩

/-- C9: assembly is purely derivational — every cell of the assembled table is
either the absent marker or a cell of one of the input sections, which are
themselves left untouched (the embedding is pure: a Section value cannot be
mutated, only read). -/
theorem C9_table_is_derived (sections : List Section) (t : Table)
    (hok : assemble sections = .ok t) :
    ∀ r ∈ t.data, ∀ c ∈ r,
      c = none ∨ ∃ s ∈ sections, ∃ row ∈ s.data, c ∈ row := by
  cases sections with
  | nil => cases hok
  | cons s₀ rest =>
    have h2 := Except.ok.inj hok
    subst h2
    intro r hr c hc
    rcases List.mem_map.mp hr with ⟨lab, hlab, hrl⟩
    subst hrl
    rcases List.mem_flatMap.mp hc with ⟨s, hs, hcs⟩
    cases hfr : findRow s.index s.data lab with
    | none =>
      unfold rowAt at hcs
      rw [hfr] at hcs
      left
      exact List.eq_of_mem_replicate hcs
    | some row =>
      unfold rowAt at hcs
      rw [hfr] at hcs
      have hcs2 : c ∈ row.take s.columns.length ++
          List.replicate (s.columns.length - row.length) (none : Cell) := hcs
      rcases List.mem_append.mp hcs2 with h1 | h2
      · right
        exact ⟨s, hs, row, findRow_mem s.index s.data lab row hfr,
          List.take_subset _ _ h1⟩
      · left
        exact List.eq_of_mem_replicate h2

theorem C9_witness :
    assemble [s9] = .ok t9 ∧
    ((some "v" : Cell) = none ∨
      ∃ s ∈ [s9], ∃ row ∈ s.data, (some "v" : Cell) ∈ row) :=
  ⟨by decide,
   C9_table_is_derived [s9] t9 (by decide) [some "v"] (by decide)
     (some "v") (by decide)⟩

/-- C10: `assemble` aligns rows by the labels the sections carry, not purely
by position: a loaded section's labels start at 1 (the dropped row kept label
0), and for two sections with different label sequences the table's label set
is the union of the two label sets, a section contributing a full row of
absent markers at every label it does not carry. -/
theorem C10_alignment_is_by_label :
    (∀ (wb : Workbook) (nm : String) (off : Nat) (sec : Section),
      loadSection wb nm off = .ok sec →
      sec.index = List.range' 1 sec.data.length) ∧
    (∀ s₁ s₂ : Section, s₁.index ≠ s₂.index →
      ∃ t, assemble [s₁, s₂] = .ok t ∧
        (∀ lab, lab ∈ t.index ↔ lab ∈ s₁.index ∨ lab ∈ s₂.index) ∧
        t.data = t.index.map (fun lab => rowAt s₁ lab ++ rowAt s₂ lab) ∧
        (∀ (s : Section) (lab : Nat), lab ∉ s.index →
          rowAt s lab = List.replicate s.columns.length none)) := by
  constructor
  · intro wb nm off sec hok
    exact loadSection_ok_canonical wb nm off sec hok
  · intro s₁ s₂ hne
    have hb2 : (s₂.index == s₁.index) = false := by
      rw [beq_eq_false_iff_ne]
      exact fun he => hne he.symm
    have hall : (([s₁, s₂] : List Section).all (fun s => s.index == s₁.index)) = false := by
      simp [List.all_cons, hb2]
    have hci : combinedIndex [s₁, s₂] =
        sortNat ((([s₁, s₂] : List Section).flatMap (fun s => s.index)).dedup) := by
      simp only [combinedIndex]
      rw [if_neg (by rw [hall]; exact Bool.false_ne_true)]
    refine ⟨_, rfl, ?_, ?_, ?_⟩
    · intro lab
      show lab ∈ combinedIndex [s₁, s₂] ↔ _
      rw [hci, (sortNat_perm _).mem_iff, List.mem_dedup, List.mem_flatMap]
      constructor
      · rintro ⟨s, hs, hmem⟩
        rcases List.mem_cons.mp hs with rfl | hs2
        · exact Or.inl hmem
        · rcases List.mem_cons.mp hs2 with rfl | hs3
          · exact Or.inr hmem
          · simp at hs3
      · rintro (h | h)
        · exact ⟨s₁, by simp, h⟩
        · exact ⟨s₂, by simp, h⟩
    · show ((combinedIndex [s₁, s₂]).map _) = (combinedIndex [s₁, s₂]).map _
      refine List.map_congr_left (fun lab _ => ?_)
      simp [List.flatMap_cons, List.flatMap_nil]
    · intro s lab h
      exact rowAt_not_mem s lab h

theorem C10_witness :
    (loadSection wbW "S" 2 = .ok secW ∧
     secW.index = List.range' 1 secW.data.length) ∧
    (w10a.index ≠ w10b.index ∧
     ∃ t, assemble [w10a, w10b] = .ok t ∧
       (∀ lab, lab ∈ t.index ↔ lab ∈ w10a.index ∨ lab ∈ w10b.index) ∧
       t.data = t.index.map (fun lab => rowAt w10a lab ++ rowAt w10b lab) ∧
       (∀ (s : Section) (lab : Nat), lab ∉ s.index →
         rowAt s lab = List.replicate s.columns.length none)) :=
  ⟨⟨by decide, C10_alignment_is_by_label.1 wbW "S" 2 secW (by decide)⟩,
   ⟨by decide, C10_alignment_is_by_label.2 w10a w10b (by decide)⟩⟩

end DataProfile
